import Mathlib

/-!
Verification of the stream-orchestration core of claude-copilot
(`templates/orchestration/orchestrate.py`, `task_copilot_client.py`,
`monitor-workers.py`), via a shallow embedding of its data model and
algorithms: stream progress, dependency-reference resolution, dependency
depth calculation, the ready-set computation of the scheduling loop, the
restart bound, PID-file liveness checks, the stop operation, and the
worktree merge phase.
-/

namespace ClaudeCopilot

/-- Stream progress statistics, as in `StreamProgress` of
`task_copilot_client.py` (task counts are SQL aggregates, hence naturals). -/
structure StreamProgress where
  total_tasks : Nat
  completed_tasks : Nat
  in_progress_tasks : Nat
  pending_tasks : Nat
  blocked_tasks : Nat
deriving Repr, DecidableEq

/-- `StreamProgress.is_complete`: `self.total_tasks > 0 and
self.completed_tasks >= self.total_tasks`. -/
def StreamProgress.is_complete (p : StreamProgress) : Bool :=
  decide (p.total_tasks > 0 ∧ p.completed_tasks ≥ p.total_tasks)

/-- `Orchestrator._get_stream_status` wraps `stream_get`; the scheduling
code then tests `status and status["is_complete"]`, i.e. a missing status
counts as not complete. -/
def statusIsComplete : Option StreamProgress → Bool
  | none => false
  | some p => p.is_complete

/-- Python's `str.startswith`: the pattern is a prefix of the string
(stated on the character lists so it evaluates). -/
def startswith (s p : String) : Bool := p.data.isPrefixOf s.data

/-- Resolution of one raw dependency reference against the known stream-ID
set, as in the inner loop of `Orchestrator._build_dependency_graph`:
a reference equal to a known ID resolves to itself; otherwise the first
known ID `sid` (in stream order) with `dep.startswith(f"{sid}:")` or
`dep.startswith(f"[{sid}]")` is used; otherwise the reference is dropped. -/
def resolveDep (ids : List String) (dep : String) : Option String :=
  if dep ∈ ids then some dep
  else ids.find? (fun sid =>
    startswith dep (sid ++ ":") || startswith dep ("[" ++ sid ++ "]"))

/-- `Orchestrator._build_dependency_graph`: per stream, the list of
resolved dependencies obtained from its raw references (unresolvable
references contribute nothing). -/
def buildDependencyGraph (ids : List String) (rawDeps : String → List String)
    (s : String) : List String :=
  (rawDeps s).filterMap (resolveDep ids)

/-- Environment observed by one iteration of the scheduling loop:
the stream-ID list (dict key order), the resolved dependency graph,
liveness per stream (`_is_running`) and progress per stream
(`stream_get`, `None` when the store has no tasks for the stream). -/
structure SchedEnv where
  streams : List String
  deps : String → List String
  running : String → Bool
  progress : String → Option StreamProgress

/-- `Orchestrator._are_dependencies_complete`: every resolved dependency
must have a status that reports `is_complete`. -/
def areDependenciesComplete (env : SchedEnv) (s : String) : Bool :=
  (env.deps s).all (fun d => statusIsComplete (env.progress d))

/-- `Orchestrator._get_ready_streams`: keep the streams that are not
running, not complete, and whose dependencies are all complete. -/
def getReadyStreams (env : SchedEnv) : List String :=
  env.streams.filter (fun s =>
    !env.running s && !statusIsComplete (env.progress s)
      && areDependenciesComplete env s)

/-- Replace one stream's progress record (used to state what happens when
a dependency is made incomplete). -/
def SchedEnv.setProgress (env : SchedEnv) (d : String)
    (q : Option StreamProgress) : SchedEnv :=
  { env with progress := fun x => if x = d then q else env.progress x }

/-- C4: For every stream progress record, the derived predicate
`is_complete` is true iff `total_tasks > 0` and
`completed_tasks >= total_tasks`. -/
theorem C4_is_complete_iff (p : StreamProgress) :
    p.is_complete = true ↔ 0 < p.total_tasks ∧ p.total_tasks ≤ p.completed_tasks := by
  simp [StreamProgress.is_complete]

/-- C1: a stream is in the ready set iff it is not running, its own
progress is not complete, and every resolved dependency reports
`is_complete`; consequently a stream with all dependencies complete is
ready, and making any one dependency incomplete removes it from the
ready set. -/
theorem C1_ready_set_characterisation :
    (∀ (env : SchedEnv) (s : String), s ∈ env.streams →
      (s ∈ getReadyStreams env ↔
        env.running s = false ∧ statusIsComplete (env.progress s) = false ∧
          ∀ d ∈ env.deps s, statusIsComplete (env.progress d) = true))
    ∧
    (∀ (env : SchedEnv) (s d : String) (q : Option StreamProgress),
      s ∈ env.streams → d ∈ env.deps s →
      env.running s = false → statusIsComplete (env.progress s) = false →
      (∀ e ∈ env.deps s, statusIsComplete (env.progress e) = true) →
      statusIsComplete q = false →
      s ∈ getReadyStreams env ∧ s ∉ getReadyStreams (env.setProgress d q)) := by
  have main : ∀ (env : SchedEnv) (s : String), s ∈ env.streams →
      (s ∈ getReadyStreams env ↔
        env.running s = false ∧ statusIsComplete (env.progress s) = false ∧
          ∀ d ∈ env.deps s, statusIsComplete (env.progress d) = true) := by
    intro env s hs
    simp only [getReadyStreams, List.mem_filter, hs, true_and,
      Bool.and_eq_true, Bool.not_eq_true', areDependenciesComplete,
      List.all_eq_true]
    tauto
  refine ⟨main, ?_⟩
  intro env s d q hs hd hrun hcomp hdeps hq
  constructor
  · exact (main env s hs).mpr ⟨hrun, hcomp, hdeps⟩
  · intro hmem
    have h := (main (env.setProgress d q) s hs).mp hmem
    have hdq : (env.setProgress d q).progress d = q := by
      simp [SchedEnv.setProgress]
    have := h.2.2 d hd
    rw [hdq] at this
    exact absurd this (by simp [hq])

/-- Concrete scheduling environment: stream `B` depends on `A`;
`A` is complete, `B` has one pending task, nothing is running. -/
def envC1 : SchedEnv where
  streams := ["A", "B"]
  deps := fun s => if s = "B" then ["A"] else []
  running := fun _ => false
  progress := fun s =>
    if s = "A" then some ⟨1, 1, 0, 0, 0⟩
    else if s = "B" then some ⟨1, 0, 0, 1, 0⟩ else none

theorem C1_witness :
    "B" ∈ getReadyStreams envC1 ∧
      "B" ∉ getReadyStreams (envC1.setProgress "A" (some ⟨1, 0, 1, 0, 0⟩)) :=
  C1_ready_set_characterisation.2 envC1 "B" "A" (some ⟨1, 0, 1, 0, 0⟩)
    (by decide) (by decide) (by decide) (by decide) (by decide) (by decide)

/-- C8: a raw reference equal to a known stream ID resolves to that ID;
one starting with `<id>:` or `[<id>]` for a known ID resolves to such an
ID; anything resolving does so in one of these ways; a reference matching
neither is dropped, and adding a dropped reference leaves the constructed
graph unchanged (construction never aborts). -/
theorem C8_reference_resolution :
    (∀ (ids : List String) (dep : String), dep ∈ ids → resolveDep ids dep = some dep)
    ∧
    (∀ (ids : List String) (dep r : String), resolveDep ids dep = some r →
      r ∈ ids ∧ (dep = r ∨ startswith dep (r ++ ":") = true ∨
        startswith dep ("[" ++ r ++ "]") = true))
    ∧
    (∀ (ids : List String) (dep : String), dep ∉ ids →
      (∃ sid ∈ ids, startswith dep (sid ++ ":") = true ∨
        startswith dep ("[" ++ sid ++ "]") = true) →
      ∃ r ∈ ids, resolveDep ids dep = some r ∧
        (startswith dep (r ++ ":") = true ∨ startswith dep ("[" ++ r ++ "]") = true))
    ∧
    (∀ (ids : List String) (dep : String), dep ∉ ids →
      (∀ sid ∈ ids, ¬startswith dep (sid ++ ":") = true ∧
        ¬startswith dep ("[" ++ sid ++ "]") = true) →
      resolveDep ids dep = none)
    ∧
    (∀ (ids : List String) (rawDeps : String → List String) (s dep : String),
      dep ∉ ids →
      (∀ sid ∈ ids, ¬startswith dep (sid ++ ":") = true ∧
        ¬startswith dep ("[" ++ sid ++ "]") = true) →
      buildDependencyGraph ids (fun x => if x = s then rawDeps s ++ [dep] else rawDeps x) s
        = buildDependencyGraph ids rawDeps s) := by
  have hnone : ∀ (ids : List String) (dep : String), dep ∉ ids →
      (∀ sid ∈ ids, ¬startswith dep (sid ++ ":") = true ∧
        ¬startswith dep ("[" ++ sid ++ "]") = true) →
      resolveDep ids dep = none := by
    intro ids dep hmem hno
    simp only [resolveDep, if_neg hmem]
    rw [List.find?_eq_none]
    intro sid hsid
    have := hno sid hsid
    simp [this.1, this.2]
  refine ⟨?_, ?_, ?_, hnone, ?_⟩
  · intro ids dep h
    simp [resolveDep, h]
  · intro ids dep r h
    by_cases hmem : dep ∈ ids
    · simp only [resolveDep, if_pos hmem] at h
      obtain rfl : dep = r := by injection h
      exact ⟨hmem, Or.inl rfl⟩
    · simp only [resolveDep, if_neg hmem] at h
      refine ⟨List.mem_of_find?_eq_some h, Or.inr ?_⟩
      have := List.find?_some h
      rwa [Bool.or_eq_true] at this
  · intro ids dep hmem hex
    obtain ⟨sid, hsid, hmatch⟩ := hex
    have hsome : (ids.find? (fun x =>
        startswith dep (x ++ ":") || startswith dep ("[" ++ x ++ "]"))).isSome := by
      rw [List.find?_isSome]
      exact ⟨sid, hsid, by rw [Bool.or_eq_true]; exact hmatch⟩
    obtain ⟨r, hr⟩ := Option.isSome_iff_exists.mp hsome
    refine ⟨r, List.mem_of_find?_eq_some hr, ?_, ?_⟩
    · simp only [resolveDep, if_neg hmem]
      exact hr
    · have := List.find?_some hr
      rwa [Bool.or_eq_true] at this
  · intro ids rawDeps s dep hmem hno
    simp [buildDependencyGraph, List.filterMap_append, hnone ids dep hmem hno]

theorem C8_witness :
    resolveDep ["A", "B"] "A" = some "A" ∧
      (∃ r ∈ ["A", "B"], resolveDep ["A", "B"] "B: fix parser bug" = some r ∧
        (startswith "B: fix parser bug" (r ++ ":") = true ∨
          startswith "B: fix parser bug" ("[" ++ r ++ "]") = true)) ∧
      resolveDep ["A", "B"] "unrelated title" = none ∧
      buildDependencyGraph ["A", "B"]
          (fun x => if x = "C" then ["A"] ++ ["unrelated title"] else ["A"]) "C"
        = buildDependencyGraph ["A", "B"] (fun _ => ["A"]) "C" :=
  ⟨C8_reference_resolution.1 ["A", "B"] "A" (by decide),
   C8_reference_resolution.2.2.1 ["A", "B"] "B: fix parser bug" (by decide)
     ⟨"B", by decide, by decide⟩,
   C8_reference_resolution.2.2.2.1 ["A", "B"] "unrelated title" (by decide) (by decide),
   C8_reference_resolution.2.2.2.2 ["A", "B"] (fun _ => ["A"]) "C" "unrelated title"
     (by decide) (by decide)⟩

/-- World against which process liveness is checked: whether the
`kill(pid, 0)` probe succeeds for a PID, and whether the PID is listed by
`ps -p` (a zombie answers the probe but is not listed). -/
structure ProcWorld where
  signalOk : Nat → Bool
  inTable : Nat → Bool

/-- A stream's PID file: `none` when the file is absent, `some none` when
it exists but `int(...)` on its content raises `ValueError`,
`some (some pid)` when it holds a parseable PID. -/
abbrev PidFile := Option (Option Nat)

/-- `Orchestrator._is_running` (identical logic in
`WorkerMonitor._is_running`): absent PID file means not running; a failing
probe (`ProcessLookupError`) or bad content (`ValueError`) deletes the file
and reports not running; a succeeding probe is double-checked against
`ps -p`, and a missing process-table entry (zombie) also deletes the file
and reports not running. Returns the verdict and the new PID-file state. -/
def isRunningCheck (w : ProcWorld) (pf : PidFile) : Bool × PidFile :=
  match pf with
  | none => (false, none)
  | some none => (false, none)
  | some (some pid) =>
    if w.signalOk pid then
      if w.inTable pid then (true, some (some pid))
      else (false, none)
    else (false, none)

/-- C6: absent PID file means not running; a dead process or a zombie
(probe succeeds, process table says no) yields not running and deletes the
PID file; and after any not-running verdict, repeating the check returns
not running again and changes nothing (idempotent). -/
theorem C6_liveness_check :
    (∀ w : ProcWorld, isRunningCheck w none = (false, none))
    ∧
    (∀ (w : ProcWorld) (pid : Nat), w.signalOk pid = false →
      isRunningCheck w (some (some pid)) = (false, none))
    ∧
    (∀ (w : ProcWorld) (pid : Nat), w.signalOk pid = true → w.inTable pid = false →
      isRunningCheck w (some (some pid)) = (false, none))
    ∧
    (∀ (w : ProcWorld) (pf : PidFile), (isRunningCheck w pf).1 = false →
      isRunningCheck w (isRunningCheck w pf).2 = (false, (isRunningCheck w pf).2)) := by
  refine ⟨fun w => rfl, ?_, ?_, ?_⟩
  · intro w pid h
    simp [isRunningCheck, h]
  · intro w pid h1 h2
    simp [isRunningCheck, h1, h2]
  · intro w pf h
    have hsnd : (isRunningCheck w pf).2 = none := by
      match pf with
      | none => rfl
      | some none => rfl
      | some (some pid) =>
        by_cases h1 : w.signalOk pid = true
        · by_cases h2 : w.inTable pid = true
          · simp [isRunningCheck, h1, h2] at h
          · simp [isRunningCheck, h1, h2]
        · simp [isRunningCheck, h1]
    rw [hsnd]
    rfl

/-- Concrete world for the liveness claim: PID 7 is live, PID 8 is a
zombie (answers the probe, absent from the table), PID 9 is gone. -/
def worldC6 : ProcWorld where
  signalOk := fun p => p == 7 || p == 8
  inTable := fun p => p == 7

theorem C6_witness :
    isRunningCheck worldC6 (some (some 9)) = (false, none) ∧
      isRunningCheck worldC6 (some (some 8)) = (false, none) := by
  refine ⟨?_, ?_⟩
  · exact C6_liveness_check.2.1 worldC6 9 (by decide)
  · exact C6_liveness_check.2.2.1 worldC6 8 (by decide) (by decide)

/-- Outcome of `os.kill(pid, SIGTERM)`. -/
inductive KillResult
  | delivered
  | noSuchProcess
deriving Repr, DecidableEq

/-- Sending a signal: `ProcessLookupError` iff the process is gone. -/
def sendSignal (w : ProcWorld) (pid : Nat) : KillResult :=
  if w.signalOk pid then .delivered else .noSuchProcess

/-- Result of `Orchestrator.stop_one`: the PID-file state afterwards, the
PID a termination signal was sent to (if any), and whether a warning was
printed. -/
structure StopResult where
  pidFile : PidFile
  signaled : Option Nat
  warned : Bool
deriving Repr, DecidableEq

/-- `Orchestrator.stop_one`: no PID file means warn and return; otherwise
parse the PID (a `ValueError` is caught and warned), send `SIGTERM` (a
`ProcessLookupError` is caught and warned), and in every such case
`unlink(missing_ok=True)` the PID file afterwards. -/
def stop_one (w : ProcWorld) (pf : PidFile) : StopResult :=
  match pf with
  | none => { pidFile := none, signaled := none, warned := true }
  | some none => { pidFile := none, signaled := none, warned := true }
  | some (some pid) =>
    match sendSignal w pid with
    | .delivered => { pidFile := none, signaled := some pid, warned := false }
    | .noSuchProcess => { pidFile := none, signaled := some pid, warned := true }

/-- C9: whenever the PID file exists, `stop_one` removes it — whether the
content parsed and whether the signal was deliverable — and whenever the
content holds a PID, a termination signal is sent to exactly that PID. -/
theorem C9_stop_removes_pid_file :
    ∀ (w : ProcWorld) (pf : PidFile) (c : Option Nat), pf = some c →
      (stop_one w pf).pidFile = none ∧
        ∀ pid : Nat, c = some pid → (stop_one w pf).signaled = some pid := by
  intro w pf c hpf
  subst hpf
  match c with
  | none => exact ⟨rfl, fun pid h => by cases h⟩
  | some pid =>
    refine ⟨?_, ?_⟩
    · cases h : sendSignal w pid <;> simp [stop_one, h]
    · intro pid' h
      obtain rfl : pid = pid' := by injection h
      cases h : sendSignal w pid <;> simp [stop_one, h]

theorem C9_witness :
    (stop_one worldC6 (some (some 9))).pidFile = none ∧
      (stop_one worldC6 (some (some 9))).signaled = some 9 := by
  have h := C9_stop_removes_pid_file worldC6 (some (some 9)) (some 9) rfl
  exact ⟨h.1, h.2 9 rfl⟩

/-- `MAX_RESTARTS = 2` in `Orchestrator.start_all`. -/
def MAX_RESTARTS : Nat := 2

/-- Result of one poll's handling of a dead worker in
`Orchestrator.start_all`: the updated restart counters, whether a restart
(spawn) was attempted, and whether the stream was reported stuck. -/
structure PollResult where
  counts : String → Nat
  restarted : Bool
  markedStuck : Bool

/-- The dead-worker branch of the `start_all` loop body for one stream
that `_get_dead_workers` reported: while `restart_counts[s] < MAX_RESTARTS`
increment the counter and respawn; otherwise report the stream stuck. -/
def handleDeadWorker (counts : String → Nat) (s : String) : PollResult :=
  if counts s < MAX_RESTARTS then
    { counts := fun x => if x = s then counts x + 1 else counts x,
      restarted := true, markedStuck := false }
  else
    { counts := counts, restarted := false, markedStuck := true }

/-- `n` consecutive polls during which stream `s` is dead every time
(worker dies on every spawn): final counters and the total number of
restart attempts performed. -/
def runPolls (counts : String → Nat) (s : String) : Nat → (String → Nat) × Nat
  | 0 => (counts, 0)
  | n + 1 =>
    let r := handleDeadWorker counts s
    let rest := runPolls r.counts s n
    (rest.1, (if r.restarted then 1 else 0) + rest.2)

lemma runPolls_spec (s : String) :
    ∀ (n : Nat) (counts : String → Nat), counts s ≤ MAX_RESTARTS →
      (runPolls counts s n).1 s = min (counts s + n) MAX_RESTARTS ∧
        (runPolls counts s n).2 = min (counts s + n) MAX_RESTARTS - counts s := by
  intro n
  induction n with
  | zero =>
    intro counts h
    constructor
    · show counts s = min (counts s + 0) MAX_RESTARTS
      omega
    · show 0 = min (counts s + 0) MAX_RESTARTS - counts s
      omega
  | succ n ih =>
    intro counts h
    have hunfold : runPolls counts s (n + 1) =
        ((runPolls (handleDeadWorker counts s).counts s n).1,
          (if (handleDeadWorker counts s).restarted then 1 else 0) +
            (runPolls (handleDeadWorker counts s).counts s n).2) := rfl
    by_cases hc : counts s < MAX_RESTARTS
    · have hstep : (handleDeadWorker counts s).counts =
          fun x => if x = s then counts x + 1 else counts x := by
        simp [handleDeadWorker, hc]
      have hres : (handleDeadWorker counts s).restarted = true := by
        simp [handleDeadWorker, hc]
      have hcs : (fun x => if x = s then counts x + 1 else counts x) s
          = counts s + 1 := by simp
      obtain ⟨ih1, ih2⟩ := ih (fun x => if x = s then counts x + 1 else counts x)
        (by rw [hcs]; omega)
      simp only [eq_self_iff_true, if_true] at ih1 ih2
      rw [hunfold, hstep, hres]
      refine ⟨?_, ?_⟩
      · rw [ih1]; omega
      · rw [ih2]; simp only [if_true]; omega
    · have hstep : (handleDeadWorker counts s).counts = counts := by
        simp [handleDeadWorker, hc]
      have hres : (handleDeadWorker counts s).restarted = false := by
        simp [handleDeadWorker, hc]
      obtain ⟨ih1, ih2⟩ := ih counts h
      rw [hunfold, hstep, hres]
      refine ⟨?_, ?_⟩
      · rw [ih1]; omega
      · rw [ih2]; simp only [Bool.false_eq_true, if_false]; omega

/-- C5: for a stream whose worker dies on every spawn, with
`MAX_RESTARTS = 2`, the counter starts at 0 and after `n` polls exactly
`min n 2` restart attempts have been made (so exactly 2 once `n ≥ 2`);
and once the counter has reached the maximum, a further poll attempts no
restart and reports the stream stuck. -/
theorem C5_restart_bound :
    (∀ (s : String) (n : Nat),
      (runPolls (fun _ => 0) s n).2 = min n MAX_RESTARTS ∧
        (runPolls (fun _ => 0) s n).1 s = min n MAX_RESTARTS)
    ∧
    (∀ (counts : String → Nat) (s : String), MAX_RESTARTS ≤ counts s →
      handleDeadWorker counts s =
        { counts := counts, restarted := false, markedStuck := true })
    ∧
    (∀ (s : String) (n : Nat), MAX_RESTARTS ≤ n →
      handleDeadWorker ((runPolls (fun _ => 0) s n).1) s =
        { counts := (runPolls (fun _ => 0) s n).1,
          restarted := false, markedStuck := true }) := by
  have hzero : ∀ (s : String) (n : Nat),
      (runPolls (fun _ => 0) s n).2 = min n MAX_RESTARTS ∧
        (runPolls (fun _ => 0) s n).1 s = min n MAX_RESTARTS := by
    intro s n
    obtain ⟨h1, h2⟩ := runPolls_spec s n (fun _ => 0) (by simp [MAX_RESTARTS])
    simp only [Nat.zero_add] at h1 h2
    exact ⟨by omega, h1⟩
  have hstuck : ∀ (counts : String → Nat) (s : String), MAX_RESTARTS ≤ counts s →
      handleDeadWorker counts s =
        { counts := counts, restarted := false, markedStuck := true } := by
    intro counts s h
    simp [handleDeadWorker, Nat.not_lt.mpr h]
  refine ⟨hzero, hstuck, ?_⟩
  intro s n hn
  apply hstuck
  rw [(hzero s n).2]
  omega

theorem C5_witness :
    ((runPolls (fun _ => 0) "A" 5).2 = min 5 MAX_RESTARTS ∧
      (runPolls (fun _ => 0) "A" 5).1 "A" = min 5 MAX_RESTARTS) ∧
      handleDeadWorker ((runPolls (fun _ => 0) "A" 5).1) "A" =
        { counts := (runPolls (fun _ => 0) "A" 5).1,
          restarted := false, markedStuck := true } :=
  ⟨C5_restart_bound.1 "A" 5, C5_restart_bound.2.2 "A" 5 (by decide)⟩

/-- Outcome of the `git merge` command for one stream's branch in
`Orchestrator._merge_all_worktrees`: success, a conflict (`CONFLICT` in
the output), or any other failure (non-conflict error, timeout,
exception). -/
inductive MergeOutcome
  | ok
  | conflict
  | failed
deriving Repr, DecidableEq

/-- Per-stream facts the merge phase observes: whether the stream's
worktree directory exists, whether `git log main..HEAD` shows commits
ahead, and how the merge command itself turns out. -/
structure WtInfo where
  hasWorktree : Bool
  commitsAhead : Bool
  outcome : MergeOutcome
deriving Repr, DecidableEq

/-- Accumulated state of the merge phase: the success counter and failure
list returned by `_merge_all_worktrees`, plus a trace of the streams for
which a merge command was executed and of the streams for which
`git merge --abort` was executed. -/
structure MergeState where
  successCount : Nat
  failures : List String
  attempted : List String
  aborted : List String
deriving Repr, DecidableEq

/-- Loop body of `Orchestrator._merge_all_worktrees` for one stream: no
worktree or no commits ahead means skip (`continue`); a successful merge
increments the success counter; a conflict runs `git merge --abort` and
records a failure; any other failure records a failure. The loop never
breaks out early. -/
def mergeStep (env : String → WtInfo) (st : MergeState) (s : String) : MergeState :=
  if !(env s).hasWorktree then st
  else if !(env s).commitsAhead then st
  else
    match (env s).outcome with
    | .ok => { st with successCount := st.successCount + 1,
                       attempted := st.attempted ++ [s] }
    | .conflict => { st with failures := st.failures ++ [s],
                             attempted := st.attempted ++ [s],
                             aborted := st.aborted ++ [s] }
    | .failed => { st with failures := st.failures ++ [s],
                           attempted := st.attempted ++ [s] }

/-- `Orchestrator._merge_all_worktrees`: fold the loop body over the
streams in order, starting from zero successes and no failures. -/
def mergeAllWorktrees (env : String → WtInfo) (streams : List String) : MergeState :=
  streams.foldl (mergeStep env) ⟨0, [], [], []⟩

/-- A stream reaches the merge command iff its worktree exists and its
branch has commits ahead of the main line. -/
def mergeEligible (env : String → WtInfo) (s : String) : Bool :=
  (env s).hasWorktree && (env s).commitsAhead

lemma mergeAll_fold_spec (env : String → WtInfo) :
    ∀ (streams : List String) (st : MergeState),
      streams.foldl (mergeStep env) st =
        { successCount := st.successCount +
            (streams.filter (fun s => mergeEligible env s
              && ((env s).outcome == .ok))).length,
          failures := st.failures ++ streams.filter (fun s => mergeEligible env s
              && !((env s).outcome == .ok)),
          attempted := st.attempted ++ streams.filter (mergeEligible env),
          aborted := st.aborted ++ streams.filter (fun s => mergeEligible env s
              && ((env s).outcome == .conflict)) } := by
  intro streams
  induction streams with
  | nil => intro st; simp
  | cons a l ih =>
    intro st
    rw [List.foldl_cons, ih]
    by_cases hw : (env a).hasWorktree = true
    · by_cases ha : (env a).commitsAhead = true
      · have he : mergeEligible env a = true := by simp [mergeEligible, hw, ha]
        cases ho : (env a).outcome with
        | ok =>
          simp [mergeStep, hw, ha, he, ho, List.filter_cons]
          omega
        | conflict =>
          simp [mergeStep, hw, ha, he, ho, List.filter_cons]
        | failed =>
          simp [mergeStep, hw, ha, he, ho, List.filter_cons]
      · have ha' : (env a).commitsAhead = false := by
          revert ha; cases (env a).commitsAhead <;> simp
        have he : mergeEligible env a = false := by
          simp [mergeEligible, ha']
        simp [mergeStep, hw, ha', he, List.filter_cons]
    · have hw' : (env a).hasWorktree = false := by
        revert hw; cases (env a).hasWorktree <;> simp
      have he : mergeEligible env a = false := by simp [mergeEligible, hw']
      simp [mergeStep, hw', he, List.filter_cons]

/-- C7: in the merge phase, the success counter counts exactly the
eligible streams whose merge succeeded; a stream with a worktree but no
commits ahead is skipped (no merge attempted, not a failure, not counted);
a conflicting merge is aborted and the stream lands in the failure list;
and every eligible stream gets its merge attempted no matter how the
merges of the other streams turn out (failures are isolated). -/
theorem C7_merge_phase_isolation :
    ∀ (env : String → WtInfo) (streams : List String),
      (mergeAllWorktrees env streams).successCount =
        (streams.filter (fun s => mergeEligible env s
          && ((env s).outcome == .ok))).length ∧
      (∀ s ∈ streams, (env s).hasWorktree = true → (env s).commitsAhead = false →
        s ∉ (mergeAllWorktrees env streams).failures ∧
          s ∉ (mergeAllWorktrees env streams).attempted) ∧
      (∀ s ∈ streams, (env s).hasWorktree = true → (env s).commitsAhead = true →
        (env s).outcome = .conflict →
        s ∈ (mergeAllWorktrees env streams).aborted ∧
          s ∈ (mergeAllWorktrees env streams).failures) ∧
      (∀ s ∈ streams, (env s).hasWorktree = true → (env s).commitsAhead = true →
        s ∈ (mergeAllWorktrees env streams).attempted) := by
  intro env streams
  have hspec := mergeAll_fold_spec env streams ⟨0, [], [], []⟩
  rw [mergeAllWorktrees, hspec]
  refine ⟨by simp, ?_, ?_, ?_⟩
  · intro s hs hw ha
    have he : mergeEligible env s = false := by simp [mergeEligible, ha]
    constructor
    · simp only [List.nil_append, List.mem_filter]
      rintro ⟨-, hpred⟩
      rw [he] at hpred
      simp at hpred
    · simp only [List.nil_append, List.mem_filter]
      rintro ⟨-, hpred⟩
      rw [he] at hpred
      simp at hpred
  · intro s hs hw ha ho
    have he : mergeEligible env s = true := by simp [mergeEligible, hw, ha]
    constructor
    · simp only [List.nil_append, List.mem_filter]
      exact ⟨hs, by simp [he, ho]⟩
    · simp only [List.nil_append, List.mem_filter]
      exact ⟨hs, by simp [he, ho]⟩
  · intro s hs hw ha
    have he : mergeEligible env s = true := by simp [mergeEligible, hw, ha]
    simp only [List.nil_append, List.mem_filter]
    exact ⟨hs, he⟩

/-- The largest dependency depth among `ds` under the map `depths`
(Python's `max(depths[dep] for dep in deps)`; every `dep` consulted is
already assigned, so the `getD 0` default is never the value used). -/
def depthOfDeps (depths : String → Option Nat) (ds : List String) : Nat :=
  (ds.map (fun d => (depths d).getD 0)).foldl max 0

/-- The depth `_calculate_dependency_depth` assigns to a ready stream:
`0` without dependencies, otherwise `max_dep_depth + 1`. -/
def depthVal (deps : String → List String) (acc : String → Option Nat)
    (s : String) : Nat :=
  if deps s = [] then 0 else depthOfDeps acc (deps s) + 1

/-- `depths[stream_id] = ...` for one ready stream. -/
def assignDepth (deps : String → List String) (acc : String → Option Nat)
    (s : String) : String → Option Nat :=
  fun x => if x = s then some (depthVal deps acc s) else acc x

/-- `depths[stream_id] = current_depth` in the circular-dependency branch. -/
def assignCycle (c : Nat) (acc : String → Option Nat) (s : String) :
    String → Option Nat :=
  fun x => if x = s then some c else acc x

/-- Loop state of `Orchestrator._calculate_dependency_depth`: the `depths`
dict, the `remaining` set, `current_depth`, whether the circular-dependency
warning fired, and whether the loop has exited. -/
structure DepthState where
  depths : String → Option Nat
  remaining : List String
  currentDepth : Nat
  warned : Bool
  finished : Bool

/-- The `ready` set of one iteration: remaining streams whose dependencies
are all already in `depths`. -/
def depthReady (deps : String → List String) (st : DepthState) : List String :=
  st.remaining.filter (fun s => (deps s).all (fun d => (st.depths d).isSome))

/-- One iteration of the `while remaining:` loop: exit when nothing
remains; if no stream is ready, warn about a circular dependency, force
all remaining streams to the current depth and break; otherwise assign
depths to the ready streams, drop them from `remaining` and increment
`current_depth`. -/
def depthStep (deps : String → List String) (st : DepthState) : DepthState :=
  if st.remaining.isEmpty then { st with finished := true }
  else
    let ready := depthReady deps st
    if ready.isEmpty then
      { st with depths := st.remaining.foldl (assignCycle st.currentDepth) st.depths,
                warned := true, finished := true }
    else
      { st with depths := ready.foldl (assignDepth deps) st.depths,
                remaining := st.remaining.filter (fun s => decide (s ∉ ready)),
                currentDepth := st.currentDepth + 1 }

/-- Fuel-indexed iteration of `depthStep` (the fuel plays the role of the
unbounded `while`; `streams.length + 1` iterations always suffice). -/
def runDepth (deps : String → List String) : Nat → DepthState → DepthState
  | 0, st => st
  | n + 1, st => if st.finished then st else runDepth deps n (depthStep deps st)

/-- Initial loop state: `depths = {}`, `remaining = set(streams)`,
`current_depth = 0`. -/
def initDepthState (streams : List String) : DepthState :=
  { depths := fun _ => none, remaining := streams, currentDepth := 0,
    warned := false, finished := false }

/-- `Orchestrator._calculate_dependency_depth`. -/
def calculateDependencyDepth (deps : String → List String)
    (streams : List String) : DepthState :=
  runDepth deps (streams.length + 1) (initDepthState streams)

lemma runDepth_finished (deps : String → List String) :
    ∀ (n : Nat) (st : DepthState), st.finished = true → runDepth deps n st = st := by
  intro n
  induction n with
  | zero => intro st _; rfl
  | succ n _ => intro st h; simp [runDepth, h]

lemma runDepth_stable (deps : String → List String) :
    ∀ (n : Nat) (st : DepthState), (runDepth deps n st).finished = true →
      ∀ m, n ≤ m → runDepth deps m st = runDepth deps n st := by
  intro n
  induction n with
  | zero =>
    intro st h m _
    exact runDepth_finished deps m st h
  | succ n ih =>
    intro st h m hm
    by_cases hf : st.finished = true
    · rw [runDepth_finished deps (n + 1) st hf, runDepth_finished deps m st hf]
    · obtain ⟨m', rfl⟩ : ∃ m', m = m' + 1 := ⟨m - 1, by omega⟩
      have hstep : runDepth deps (n + 1) st = runDepth deps n (depthStep deps st) := by
        simp [runDepth, hf]
      have hstep' : runDepth deps (m' + 1) st = runDepth deps m' (depthStep deps st) := by
        simp [runDepth, hf]
      rw [hstep] at h ⊢
      rw [hstep']
      exact ih (depthStep deps st) h m' (by omega)

lemma filter_length_lt {l : List String} {p : String → Bool} {x : String}
    (hx : x ∈ l) (hp : p x = false) : (l.filter p).length < l.length := by
  induction l with
  | nil => cases hx
  | cons a t ih =>
    rcases List.mem_cons.mp hx with rfl | hxt
    · rw [List.filter_cons, hp]
      exact Nat.lt_succ_of_le (t.length_filter_le p)
    · rw [List.filter_cons]
      cases hpa : p a
      · simp only [hpa, Bool.false_eq_true, if_false]
        exact Nat.lt_succ_of_lt (ih hxt)
      · simp only [hpa, if_true, List.length_cons]
        exact Nat.succ_lt_succ (ih hxt)

lemma depthStep_remaining_lt (deps : String → List String) (st : DepthState)
    (hne : st.remaining.isEmpty = false)
    (hready : (depthReady deps st).isEmpty = false) :
    (depthStep deps st).remaining.length < st.remaining.length := by
  have hstep : (depthStep deps st).remaining =
      st.remaining.filter (fun s => decide (s ∉ depthReady deps st)) := by
    simp [depthStep, hne, hready]
  rw [hstep]
  have hne' : depthReady deps st ≠ [] := by
    intro h; rw [h] at hready; simp at hready
  obtain ⟨r, hr⟩ := List.exists_mem_of_ne_nil _ hne'
  refine filter_length_lt (List.mem_of_mem_filter hr) ?_
  simp [hr]

lemma runDepth_terminates (deps : String → List String) :
    ∀ (n : Nat) (st : DepthState), st.remaining.length < n →
      (runDepth deps n st).finished = true := by
  intro n
  induction n with
  | zero => intro st h; omega
  | succ n ih =>
    intro st h
    by_cases hf : st.finished = true
    · rw [runDepth_finished deps (n + 1) st hf]; exact hf
    · have hstep : runDepth deps (n + 1) st = runDepth deps n (depthStep deps st) := by
        simp [runDepth, hf]
      rw [hstep]
      by_cases hne : st.remaining.isEmpty
      · have : depthStep deps st = { st with finished := true } := by
          simp [depthStep, hne]
        rw [this, runDepth_finished deps n _ rfl]
      · by_cases hready : (depthReady deps st).isEmpty
        · have : (depthStep deps st).finished = true := by
            simp only [Bool.not_eq_true] at hne
            simp [depthStep, hne, hready]
          rw [runDepth_finished deps n _ this]
          exact this
        · simp only [Bool.not_eq_true] at hne hready
          have hlt := depthStep_remaining_lt deps st hne hready
          exact ih (depthStep deps st) (by omega)

lemma assignCycle_foldl_isSome (c : Nat) :
    ∀ (l : List String) (acc : String → Option Nat) (x : String),
      ((acc x).isSome = true ∨ x ∈ l) →
      ((l.foldl (assignCycle c) acc) x).isSome = true := by
  intro l
  induction l with
  | nil =>
    intro acc x h
    rcases h with h | h
    · exact h
    · cases h
  | cons a t ih =>
    intro acc x h
    rw [List.foldl_cons]
    by_cases hxa : x = a
    · apply ih
      left
      subst hxa
      simp [assignCycle]
    · apply ih
      rcases h with h | h
      · left; simpa [assignCycle, hxa] using h
      · rcases List.mem_cons.mp h with h' | h'
        · exact absurd h' hxa
        · right; exact h'

lemma assignDepth_foldl_isSome (deps : String → List String) :
    ∀ (l : List String) (acc : String → Option Nat) (x : String),
      ((acc x).isSome = true ∨ x ∈ l) →
      ((l.foldl (assignDepth deps) acc) x).isSome = true := by
  intro l
  induction l with
  | nil =>
    intro acc x h
    rcases h with h | h
    · exact h
    · cases h
  | cons a t ih =>
    intro acc x h
    rw [List.foldl_cons]
    by_cases hxa : x = a
    · apply ih
      left
      subst hxa
      simp [assignDepth]
    · apply ih
      rcases h with h | h
      · left; simpa [assignDepth, hxa] using h
      · rcases List.mem_cons.mp h with h' | h'
        · exact absurd h' hxa
        · right; exact h'

/-- Invariant carrying the "every stream ends with a depth" fact. -/
def TotalInv (streams : List String) (st : DepthState) : Prop :=
  (∀ s ∈ streams, s ∈ st.remaining ∨ (st.depths s).isSome = true) ∧
    (st.finished = true → ∀ s ∈ streams, (st.depths s).isSome = true)

lemma depthStep_totalInv (deps : String → List String) (streams : List String)
    (st : DepthState) (h : TotalInv streams st) :
    TotalInv streams (depthStep deps st) := by
  obtain ⟨h1, h2⟩ := h
  by_cases hne : st.remaining.isEmpty
  · have hrem : st.remaining = [] := List.isEmpty_iff.mp hne
    have hstep : depthStep deps st = { st with finished := true } := by
      simp [depthStep, hne]
    rw [hstep]
    refine ⟨fun s hs => h1 s hs, fun _ s hs => ?_⟩
    rcases h1 s hs with h | h
    · rw [hrem] at h; cases h
    · exact h
  · simp only [Bool.not_eq_true] at hne
    by_cases hready : (depthReady deps st).isEmpty
    · have hstep : depthStep deps st =
          { st with depths := st.remaining.foldl (assignCycle st.currentDepth) st.depths,
                    warned := true, finished := true } := by
        simp [depthStep, hne, hready]
      rw [hstep]
      constructor
      · intro s hs
        rcases h1 s hs with h | h
        · exact Or.inl h
        · exact Or.inr (assignCycle_foldl_isSome _ _ _ _ (Or.inl h))
      · intro _ s hs
        rcases h1 s hs with h | h
        · exact assignCycle_foldl_isSome _ _ _ _ (Or.inr h)
        · exact assignCycle_foldl_isSome _ _ _ _ (Or.inl h)
    · simp only [Bool.not_eq_true] at hready
      have hstep : depthStep deps st =
          { st with depths := (depthReady deps st).foldl (assignDepth deps) st.depths,
                    remaining := st.remaining.filter
                      (fun s => decide (s ∉ depthReady deps st)),
                    currentDepth := st.currentDepth + 1 } := by
        simp [depthStep, hne, hready]
      rw [hstep]
      constructor
      · intro s hs
        rcases h1 s hs with h | h
        · by_cases hmem : s ∈ depthReady deps st
          · exact Or.inr (assignDepth_foldl_isSome _ _ _ _ (Or.inr hmem))
          · exact Or.inl (List.mem_filter.mpr ⟨h, by simp [hmem]⟩)
        · exact Or.inr (assignDepth_foldl_isSome _ _ _ _ (Or.inl h))
      · intro hfin s hs
        exact assignDepth_foldl_isSome _ _ _ _ (Or.inl (h2 hfin s hs))

lemma runDepth_totalInv (deps : String → List String) (streams : List String) :
    ∀ (n : Nat) (st : DepthState), TotalInv streams st →
      TotalInv streams (runDepth deps n st) := by
  intro n
  induction n with
  | zero => intro st h; exact h
  | succ n ih =>
    intro st h
    by_cases hf : st.finished = true
    · rw [runDepth_finished deps (n + 1) st hf]; exact h
    · have hstep : runDepth deps (n + 1) st = runDepth deps n (depthStep deps st) := by
        simp [runDepth, hf]
      rw [hstep]
      exact ih _ (depthStep_totalInv deps streams st h)

/-- Dependency graph of the two-stream cycle `A → B`, `B → A`. -/
def depsCycleAB : String → List String :=
  fun s => if s = "A" then ["B"] else if s = "B" then ["A"] else []

/-- C3: depth calculation terminates on every input (any fuel of at least
`streams.length + 1` gives the same final state), every stream ends up
with exactly one depth value, and on the cycle `A ↔ B` both streams get
the same depth (0) and the circular-dependency warning fires. -/
theorem C3_depth_terminates_total :
    (∀ (deps : String → List String) (streams : List String) (n : Nat),
      streams.length + 1 ≤ n →
      runDepth deps n (initDepthState streams) = calculateDependencyDepth deps streams)
    ∧
    (∀ (deps : String → List String) (streams : List String), ∀ s ∈ streams,
      ((calculateDependencyDepth deps streams).depths s).isSome = true)
    ∧
    ((calculateDependencyDepth depsCycleAB ["A", "B"]).depths "A" = some 0 ∧
      (calculateDependencyDepth depsCycleAB ["A", "B"]).depths "B" = some 0 ∧
      (calculateDependencyDepth depsCycleAB ["A", "B"]).warned = true) := by
  refine ⟨?_, ?_, ?_, ?_, ?_⟩
  · intro deps streams n hn
    have hfin : (runDepth deps (streams.length + 1) (initDepthState streams)).finished
        = true := by
      apply runDepth_terminates
      simp [initDepthState]
    exact runDepth_stable deps (streams.length + 1) (initDepthState streams) hfin n hn
  · intro deps streams s hs
    have hinv : TotalInv streams (initDepthState streams) := by
      refine ⟨fun s hs => Or.inl hs, fun hfin => ?_⟩
      simp [initDepthState] at hfin
    have hfin : (calculateDependencyDepth deps streams).finished = true := by
      apply runDepth_terminates
      simp [initDepthState]
    exact (runDepth_totalInv deps streams _ _ hinv).2 hfin s hs
  · decide
  · decide
  · decide

theorem C3_witness :
    runDepth depsCycleAB 7 (initDepthState ["A", "B"])
        = calculateDependencyDepth depsCycleAB ["A", "B"] ∧
      ((calculateDependencyDepth depsCycleAB ["A", "B"]).depths "A").isSome = true :=
  ⟨C3_depth_terminates_total.1 depsCycleAB ["A", "B"] 7 (by decide),
   C3_depth_terminates_total.2.1 depsCycleAB ["A", "B"] "A" (by decide)⟩

/-- The resolved dependency graph only mentions known streams (true of
every graph `_build_dependency_graph` produces). -/
def ClosedGraph (deps : String → List String) (streams : List String) : Prop :=
  ∀ s ∈ streams, ∀ d ∈ deps s, d ∈ streams

/-- Acyclicity: every nonempty subset of the stream set contains a stream
none of whose dependencies lie in the subset. -/
def AcyclicGraph (deps : String → List String) (streams : List String) : Prop :=
  ∀ S : List String, S ≠ [] → (∀ s ∈ S, s ∈ streams) →
    ∃ s ∈ S, ∀ d ∈ deps s, d ∉ S

/-- The spec's depth recurrence at one stream, relative to a depth map
`f`: depth 0 without dependencies, otherwise one more than the maximum of
the (all assigned) dependency depths. -/
def RecAt (deps : String → List String) (f : String → Option Nat) (s : String) : Prop :=
  ∃ n, f s = some n ∧
    (deps s = [] → n = 0) ∧
    (deps s ≠ [] → (∀ d ∈ deps s, (f d).isSome = true) ∧
      n = depthOfDeps f (deps s) + 1)

lemma depthOfDeps_congr {f g : String → Option Nat} {ds : List String}
    (h : ∀ d ∈ ds, f d = g d) : depthOfDeps f ds = depthOfDeps g ds := by
  unfold depthOfDeps
  rw [List.map_congr_left (fun d hd => by rw [h d hd])]

lemma RecAt_mono {deps : String → List String} {f g : String → Option Nat}
    (hmono : ∀ y v, f y = some v → g y = some v) (s : String)
    (h : RecAt deps f s) : RecAt deps g s := by
  obtain ⟨n, hfs, h0, h1⟩ := h
  refine ⟨n, hmono s n hfs, h0, ?_⟩
  intro hne
  obtain ⟨hall, hval⟩ := h1 hne
  have heq : ∀ d ∈ deps s, f d = g d := by
    intro d hd
    obtain ⟨v, hv⟩ := Option.isSome_iff_exists.mp (hall d hd)
    rw [hv, hmono d v hv]
  refine ⟨?_, ?_⟩
  · intro d hd
    rw [← heq d hd]
    exact hall d hd
  · rw [hval, depthOfDeps_congr heq]

lemma assignDepth_fold_spec (deps : String → List String) :
    ∀ (l : List String) (acc : String → Option Nat),
      l.Nodup → (∀ s ∈ l, acc s = none) →
      (∀ s ∈ l, ∀ d ∈ deps s, (acc d).isSome = true) →
      (∀ x, x ∉ l → (l.foldl (assignDepth deps) acc) x = acc x) ∧
      (∀ x ∈ l, (l.foldl (assignDepth deps) acc) x = some (depthVal deps acc x)) := by
  intro l
  induction l with
  | nil =>
    intro acc _ _ _
    exact ⟨fun x _ => rfl, fun x hx => absurd hx (List.not_mem_nil x)⟩
  | cons a t ih =>
    intro acc hnodup hnone hdeps
    have hat : a ∉ t := (List.nodup_cons.mp hnodup).1
    have htnodup : t.Nodup := (List.nodup_cons.mp hnodup).2
    have hacc1 : ∀ x, assignDepth deps acc a x =
        if x = a then some (depthVal deps acc a) else acc x := fun x => rfl
    have hnone' : ∀ s ∈ t, assignDepth deps acc a s = none := by
      intro s hs
      have hsa : s ≠ a := by rintro rfl; exact hat hs
      rw [hacc1, if_neg hsa]
      exact hnone s (List.mem_cons_of_mem a hs)
    have hdeps' : ∀ s ∈ t, ∀ d ∈ deps s, (assignDepth deps acc a d).isSome = true := by
      intro s hs d hd
      rw [hacc1]
      by_cases hda : d = a
      · rw [if_pos hda]; rfl
      · rw [if_neg hda]
        exact hdeps s (List.mem_cons_of_mem a hs) d hd
    obtain ⟨ihout, ihin⟩ := ih (assignDepth deps acc a) htnodup hnone' hdeps'
    constructor
    · intro x hx
      have hxa : x ≠ a := by rintro rfl; exact hx (List.mem_cons_self _ _)
      rw [List.foldl_cons, ihout x (fun hxt => hx (List.mem_cons_of_mem a hxt)),
        hacc1, if_neg hxa]
    · intro x hx
      rw [List.foldl_cons]
      rcases List.mem_cons.mp hx with rfl | hxt
      · rw [ihout x hat, hacc1, if_pos rfl]
      · rw [ihin x hxt]
        congr 1
        unfold depthVal
        by_cases hde : deps x = []
        · rw [if_pos hde, if_pos hde]
        · rw [if_neg hde, if_neg hde]
          congr 1
          apply depthOfDeps_congr
          intro d hd
          rw [hacc1]
          have hda : d ≠ a := by
            intro hda
            have := hdeps x hx d hd
            rw [hda, hnone a (List.mem_cons_self a t)] at this
            exact absurd this (by simp)
          rw [if_neg hda]

/-- Invariant of the level-peeling loop on an acyclic graph: the set of
remaining streams is duplicate-free and within the stream set, assigned
streams are exactly those no longer remaining, and every assigned stream
already satisfies the depth recurrence. -/
def AcyclicInv (deps : String → List String) (streams : List String)
    (st : DepthState) : Prop :=
  st.remaining.Nodup ∧
    (∀ s ∈ st.remaining, s ∈ streams) ∧
    (∀ s, (st.depths s).isSome = true → s ∉ st.remaining) ∧
    (∀ s ∈ streams, s ∉ st.remaining → RecAt deps st.depths s) ∧
    (st.finished = true → ∀ s ∈ streams, RecAt deps st.depths s)

lemma depthStep_acyclicInv (deps : String → List String) (streams : List String)
    (hclosed : ClosedGraph deps streams) (hacyc : AcyclicGraph deps streams)
    (st : DepthState) (h : AcyclicInv deps streams st) :
    AcyclicInv deps streams (depthStep deps st) := by
  obtain ⟨hnodup, hsub, hassigned, hrec, hfin⟩ := h
  by_cases hne : st.remaining.isEmpty
  · have hrem : st.remaining = [] := List.isEmpty_iff.mp hne
    have hstep : depthStep deps st = { st with finished := true } := by
      simp [depthStep, hne]
    rw [hstep]
    exact ⟨hnodup, hsub, hassigned, hrec,
      fun _ s hs => hrec s hs (by rw [hrem]; exact List.not_mem_nil s)⟩
  · simp only [Bool.not_eq_true] at hne
    have hready_ne : ¬(depthReady deps st).isEmpty = true := by
      intro hready
      have hrne : st.remaining ≠ [] := by
        intro hr; rw [hr] at hne; simp at hne
      obtain ⟨s, hs, hsdeps⟩ := hacyc st.remaining hrne hsub
      have hsready : s ∈ depthReady deps st := by
        rw [depthReady, List.mem_filter]
        refine ⟨hs, ?_⟩
        rw [List.all_eq_true]
        intro d hd
        have hdstream : d ∈ streams := hclosed s (hsub s hs) d hd
        have hdnot : d ∉ st.remaining := hsdeps d hd
        obtain ⟨n, hn, -, -⟩ := hrec d hdstream hdnot
        simp [hn]
      rw [List.isEmpty_iff.mp hready] at hsready
      exact List.not_mem_nil s hsready
    have hready : (depthReady deps st).isEmpty = false := by
      revert hready_ne; cases (depthReady deps st).isEmpty <;> simp
    have hstep : depthStep deps st =
        { st with depths := (depthReady deps st).foldl (assignDepth deps) st.depths,
                  remaining := st.remaining.filter
                    (fun s => decide (s ∉ depthReady deps st)),
                  currentDepth := st.currentDepth + 1 } := by
      simp [depthStep, hne, hready]
    have hreadysub : ∀ s ∈ depthReady deps st, s ∈ st.remaining :=
      fun s hs => List.mem_of_mem_filter hs
    have hreadynodup : (depthReady deps st).Nodup := hnodup.filter _
    have hreadynone : ∀ s ∈ depthReady deps st, st.depths s = none := by
      intro s hs
      by_cases hsome : (st.depths s).isSome = true
      · exact absurd (hreadysub s hs) (hassigned s hsome)
      · exact Option.not_isSome_iff_eq_none.mp (by simpa using hsome)
    have hreadydeps : ∀ s ∈ depthReady deps st, ∀ d ∈ deps s,
        (st.depths d).isSome = true := by
      intro s hs d hd
      have := (List.mem_filter.mp hs).2
      rw [List.all_eq_true] at this
      exact this d hd
    obtain ⟨hout, hin⟩ := assignDepth_fold_spec deps (depthReady deps st) st.depths
      hreadynodup hreadynone hreadydeps
    have hmono : ∀ y v, st.depths y = some v →
        ((depthReady deps st).foldl (assignDepth deps) st.depths) y = some v := by
      intro y v hy
      by_cases hyready : y ∈ depthReady deps st
      · rw [hreadynone y hyready] at hy; cases hy
      · rw [hout y hyready]; exact hy
    rw [hstep]
    refine ⟨hnodup.filter _, ?_, ?_, ?_, ?_⟩
    · intro s hs
      dsimp only at hs
      exact hsub s (List.mem_of_mem_filter hs)
    · intro s hsome hmem
      dsimp only at hsome hmem
      have hsrem : s ∈ st.remaining := List.mem_of_mem_filter hmem
      have hsnotready : s ∉ depthReady deps st := by
        have := (List.mem_filter.mp hmem).2
        simpa using this
      rw [hout s hsnotready] at hsome
      exact hassigned s hsome hsrem
    · intro s hstream hsnot
      dsimp only at hsnot ⊢
      by_cases hsrem : s ∈ st.remaining
      · have hsready : s ∈ depthReady deps st := by
          by_contra hnot
          exact hsnot (List.mem_filter.mpr ⟨hsrem, by simpa using hnot⟩)
        refine ⟨depthVal deps st.depths s, hin s hsready, ?_, ?_⟩
        · intro hde
          unfold depthVal
          rw [if_pos hde]
        · intro hde
          have hdepsready : ∀ d ∈ deps s, d ∉ depthReady deps st := by
            intro d hd hdready
            have := hreadydeps s hsready d hd
            rw [hreadynone d hdready] at this
            exact absurd this (by simp)
          refine ⟨?_, ?_⟩
          · intro d hd
            rw [hout d (hdepsready d hd)]
            exact hreadydeps s hsready d hd
          · unfold depthVal
            rw [if_neg hde]
            congr 1
            apply depthOfDeps_congr
            intro d hd
            rw [hout d (hdepsready d hd)]
      · exact RecAt_mono hmono s (hrec s hstream hsrem)
    · intro hf s hs
      dsimp only at hf ⊢
      exact RecAt_mono hmono s (hfin hf s hs)

lemma runDepth_acyclicInv (deps : String → List String) (streams : List String)
    (hclosed : ClosedGraph deps streams) (hacyc : AcyclicGraph deps streams) :
    ∀ (n : Nat) (st : DepthState), AcyclicInv deps streams st →
      AcyclicInv deps streams (runDepth deps n st) := by
  intro n
  induction n with
  | zero => intro st h; exact h
  | succ n ih =>
    intro st h
    by_cases hf : st.finished = true
    · rw [runDepth_finished deps (n + 1) st hf]; exact h
    · have hstep : runDepth deps (n + 1) st = runDepth deps n (depthStep deps st) := by
        simp [runDepth, hf]
      rw [hstep]
      exact ih _ (depthStep_acyclicInv deps streams hclosed hacyc st h)

/-- The three-stream DAG of the spec: `A` has no dependencies, `B` depends
on `A`, `C` depends on `A` and `B`. -/
def depsABC : String → List String :=
  fun s => if s = "B" then ["A"] else if s = "C" then ["A", "B"] else []

/-- All six input orderings of the streams `A`, `B`, `C`. -/
def ordersABC : List (List String) :=
  [["A", "B", "C"], ["A", "C", "B"], ["B", "A", "C"],
   ["B", "C", "A"], ["C", "A", "B"], ["C", "B", "A"]]

/-- C2: on an acyclic resolved graph the computed depth satisfies the
recurrence — `some 0` for a stream without resolved dependencies,
otherwise one more than the maximum of its dependencies' depths (all of
which are assigned); and on the DAG `A`, `B(dep A)`, `C(dep A, B)` the
depths are 0, 1, 2 for every one of the six input orderings. -/
theorem C2_depth_recurrence :
    (∀ (deps : String → List String) (streams : List String),
      streams.Nodup → ClosedGraph deps streams → AcyclicGraph deps streams →
      ∀ s ∈ streams,
        (deps s = [] → (calculateDependencyDepth deps streams).depths s = some 0) ∧
        (deps s ≠ [] →
          (∀ d ∈ deps s,
            ((calculateDependencyDepth deps streams).depths d).isSome = true) ∧
          (calculateDependencyDepth deps streams).depths s =
            some (depthOfDeps (calculateDependencyDepth deps streams).depths
              (deps s) + 1)))
    ∧
    (∀ order ∈ ordersABC,
      (calculateDependencyDepth depsABC order).depths "A" = some 0 ∧
        (calculateDependencyDepth depsABC order).depths "B" = some 1 ∧
        (calculateDependencyDepth depsABC order).depths "C" = some 2) := by
  constructor
  · intro deps streams hnodup hclosed hacyc s hs
    have hinit : AcyclicInv deps streams (initDepthState streams) := by
      refine ⟨hnodup, fun s hs => hs, ?_, ?_, ?_⟩
      · intro s hsome
        simp [initDepthState] at hsome
      · intro s hstream hsnot
        exact absurd hstream hsnot
      · intro hf
        simp [initDepthState] at hf
    have hfinal := runDepth_acyclicInv deps streams hclosed hacyc
      (streams.length + 1) (initDepthState streams) hinit
    have hfin : (calculateDependencyDepth deps streams).finished = true := by
      apply runDepth_terminates
      simp [initDepthState]
    have hcalc : calculateDependencyDepth deps streams
        = runDepth deps (streams.length + 1) (initDepthState streams) := rfl
    obtain ⟨n, hn, h0, h1⟩ := hfinal.2.2.2.2 hfin s hs
    constructor
    · intro hde
      rw [hcalc, hn, h0 hde]
    · intro hde
      obtain ⟨hall, hval⟩ := h1 hde
      refine ⟨?_, ?_⟩
      · intro d hd
        rw [hcalc]
        exact hall d hd
      · rw [hcalc, hn, hval]
  · decide

lemma acyclicABC : AcyclicGraph depsABC ["A", "B", "C"] := by
  intro S hne hsub
  by_cases hA : "A" ∈ S
  · refine ⟨"A", hA, ?_⟩
    intro d hd
    simp [depsABC] at hd
  · by_cases hB : "B" ∈ S
    · refine ⟨"B", hB, ?_⟩
      intro d hd
      simp [depsABC] at hd
      subst hd
      exact hA
    · obtain ⟨s, hs⟩ := List.exists_mem_of_ne_nil S hne
      have hmem := hsub s hs
      simp at hmem
      rcases hmem with rfl | rfl | rfl
      · exact absurd hs hA
      · exact absurd hs hB
      · refine ⟨"C", hs, ?_⟩
        intro d hd
        simp [depsABC] at hd
        rcases hd with rfl | rfl
        · exact hA
        · exact hB

theorem C2_witness :
    (calculateDependencyDepth depsABC ["A", "B", "C"]).depths "C" =
      some (depthOfDeps (calculateDependencyDepth depsABC ["A", "B", "C"]).depths
        (depsABC "C") + 1) :=
  ((C2_depth_recurrence.1 depsABC ["A", "B", "C"] (by decide)
      (by unfold ClosedGraph; decide) acyclicABC "C" (by decide)).2
    (by decide)).2

/-- Task lifecycle status, as in `TaskStatus` of `task_copilot_client.py`. -/
inductive TaskStatus
  | pending
  | in_progress
  | completed
  | blocked
deriving Repr, DecidableEq

/-- `TaskCopilotClient.stream_get`: the SQL aggregate counts the stream's
(unarchived, initiative-filtered) tasks; on `not row or row[0] == 0` the
method returns `None` rather than a zero-count record. -/
def stream_get (tasks : List TaskStatus) : Option StreamProgress :=
  if tasks.length = 0 then none
  else some
    { total_tasks := tasks.length
      completed_tasks := (tasks.filter (fun t => t == .completed)).length
      in_progress_tasks := (tasks.filter (fun t => t == .in_progress)).length
      pending_tasks := (tasks.filter (fun t => t == .pending)).length
      blocked_tasks := (tasks.filter (fun t => t == .blocked)).length }

/-- The global-completion check of `start_all`: every stream must have a
status and report `is_complete` (a `None` status makes it fail). -/
def allComplete (streams : List String) (prog : String → Option StreamProgress) : Bool :=
  streams.all (fun s => statusIsComplete (prog s))

/-- Terminal outcome of the `start_all` polling loop, abstracting every
branch except the completion check: `complete` is reachable only through
the all-complete branch, `stuck` stands for the deadlock break, and
`outOfFuel` for exhausting the modelled number of polls. -/
inductive RunResult
  | complete
  | stuck
  | outOfFuel
deriving Repr, DecidableEq

/-- The polling loop observed through the task store: at poll `i` the
store holds `store i s` tasks for stream `s`; the loop first evaluates the
global-completion check and ends `Complete` when it holds, otherwise it
may end `Stuck` (deadlock break) or keep polling. -/
def runLoop (streams : List String) (store : Nat → String → List TaskStatus)
    (stuckAt : Nat → Bool) : Nat → Nat → RunResult
  | 0, _ => .outOfFuel
  | fuel + 1, i =>
    if allComplete streams (fun s => stream_get (store i s)) then .complete
    else if stuckAt i then .stuck
    else runLoop streams store stuckAt fuel (i + 1)

/-- C10: a stream with zero tasks gets `None` from `stream_get` rather
than a zero-count record; a `None` status makes the global-completion
check false; and while some stream has zero tasks at every poll, the run
can never end in the `Complete` terminal state. -/
theorem C10_zero_tasks_blocks_completion :
    (∀ tasks : List TaskStatus, tasks.length = 0 → stream_get tasks = none)
    ∧
    (∀ (streams : List String) (prog : String → Option StreamProgress) (s : String),
      s ∈ streams → prog s = none → allComplete streams prog = false)
    ∧
    (∀ (streams : List String) (store : Nat → String → List TaskStatus)
        (stuckAt : Nat → Bool),
      (∀ i, ∃ s ∈ streams, (store i s).length = 0) →
      ∀ (fuel i : Nat), runLoop streams store stuckAt fuel i ≠ .complete) := by
  have hget : ∀ tasks : List TaskStatus, tasks.length = 0 → stream_get tasks = none := by
    intro tasks h
    simp [stream_get, h]
  have hall : ∀ (streams : List String) (prog : String → Option StreamProgress)
      (s : String), s ∈ streams → prog s = none → allComplete streams prog = false := by
    intro streams prog s hs hnone
    by_contra h
    have htrue : allComplete streams prog = true := by
      revert h; cases allComplete streams prog <;> simp
    rw [allComplete, List.all_eq_true] at htrue
    have := htrue s hs
    rw [hnone] at this
    simp [statusIsComplete] at this
  refine ⟨hget, hall, ?_⟩
  intro streams store stuckAt hzero fuel
  induction fuel with
  | zero =>
    intro i h
    simp [runLoop] at h
  | succ fuel ih =>
    intro i h
    obtain ⟨s, hs, hlen⟩ := hzero i
    have hnone : stream_get (store i s) = none := hget _ hlen
    have hfalse : allComplete streams (fun s => stream_get (store i s)) = false :=
      hall streams _ s hs hnone
    rw [runLoop, hfalse] at h
    simp only [Bool.false_eq_true, if_false] at h
    by_cases hst : stuckAt i = true
    · rw [if_pos hst] at h
      cases h
    · rw [if_neg hst] at h
      exact ih (i + 1) h

theorem C10_witness :
    stream_get ([] : List TaskStatus) = none ∧
      allComplete ["A"] (fun _ => none) = false ∧
      runLoop ["A"] (fun _ _ => []) (fun _ => false) 3 0 ≠ .complete :=
  ⟨C10_zero_tasks_blocks_completion.1 [] rfl,
   C10_zero_tasks_blocks_completion.2.1 ["A"] (fun _ => none) "A" (by decide) rfl,
   C10_zero_tasks_blocks_completion.2.2 ["A"] (fun _ _ => []) (fun _ => false)
     (fun _ => ⟨"A", by decide, rfl⟩) 3 0⟩

/-- Concrete merge-phase environment: `X` merges cleanly, `Y` conflicts,
`Z` has a worktree with no commits ahead. -/
def envC7 : String → WtInfo := fun s =>
  if s = "X" then ⟨true, true, .ok⟩
  else if s = "Y" then ⟨true, true, .conflict⟩
  else if s = "Z" then ⟨true, false, .ok⟩
  else ⟨false, false, .ok⟩

theorem C7_witness :
    (mergeAllWorktrees envC7 ["X", "Y", "Z"]).successCount =
      ((["X", "Y", "Z"]).filter (fun s => mergeEligible envC7 s
        && ((envC7 s).outcome == .ok))).length ∧
      ("Z" ∉ (mergeAllWorktrees envC7 ["X", "Y", "Z"]).failures ∧
        "Z" ∉ (mergeAllWorktrees envC7 ["X", "Y", "Z"]).attempted) ∧
      ("Y" ∈ (mergeAllWorktrees envC7 ["X", "Y", "Z"]).aborted ∧
        "Y" ∈ (mergeAllWorktrees envC7 ["X", "Y", "Z"]).failures) ∧
      "X" ∈ (mergeAllWorktrees envC7 ["X", "Y", "Z"]).attempted := by
  obtain ⟨h1, h2, h3, h4⟩ := C7_merge_phase_isolation envC7 ["X", "Y", "Z"]
  exact ⟨h1, h2 "Z" (by decide) (by decide) (by decide),
    h3 "Y" (by decide) (by decide) (by decide) (by decide),
    h4 "X" (by decide) (by decide) (by decide)⟩

end ClaudeCopilot
